import Mathlib

/-!
Verification development for the json-tools-next repository.

The repository is a browser JSON editing tool. Its JSON-specific logic lives
in the Monaco editor component (validation, auto-repair via `jsonrepair`,
field sorting, unescape, comment removal, a debounced validation timer) and
in a zustand tab store. This file shallowly embeds that logic:

* `JsValue` is the JSON data model; `jsonParse` models the JavaScript
  `JSON.parse` builtin (ECMA-404 grammar) as a fueled pushdown machine, with
  the unconsumed input returned on failure so a character offset can be
  recovered; `stringify` models `JSON.stringify(v, null, indent)`.
* `EditorState` models the component state of the Monaco JSON editor
  (buffer, undo stack, parse-error banner, error-details modal, decorations)
  together with the boundary contract of the external editor widget:
  `setEditorValue` performs one full-range `executeEdits`, i.e. an atomic,
  undoable replacement, modelled as pushing a single undo entry.
* The functions `editorValueValidate`, `autoFix`, `goToErrorLine`,
  `highlightErrorLine`, `fieldSort`, `formatModelByUnEscapeJson` and
  `moreAction` are translated from the component source.  External
  collaborators that the source only calls (the `jsonrepair` heuristic and
  the JSON5 dialect checker) are taken as function parameters, so theorems
  about them hold for every possible behaviour of those libraries.
* The `@/utils/json` helpers (`sortJson`, `removeJsonComments`,
  `jsonParseError`, `isArrayOrObject`) are imported by the source but their
  module is not part of the sources at hand; they are modelled from the
  specification and marked as such in their doc comments.
* `TabStore` with `closeTab`/`closeAllTabs` is translated from the store
  source.

Numbers are modelled as exact decimals (mantissa and a power of ten) rather
than IEEE-754 doubles; integer-valued numbers print exactly as in
JavaScript, and no theorem below depends on the printing of any other
number.  Strings are sequences of unicode scalar values rather than UTF-16
code units; a `\uXXXX` escape denoting a lone surrogate is folded to U+0000.
-/

/-- The whitespace set used by `String.prototype.trim` in JavaScript
(restricted to the code points that can occur here). -/
def jsIsWhitespace (c : Char) : Bool :=
  c = ' ' ∨ c = '\t' ∨ c = '\n' ∨ c = '\r' ∨ c = '\x0b' ∨ c = '\x0c' ∨
    c = '\xa0' ∨ c = '﻿'

/-- Model of JavaScript `String.prototype.trim`. -/
def jsTrim (s : String) : String :=
  String.mk (((s.data.dropWhile jsIsWhitespace).reverse.dropWhile
    jsIsWhitespace).reverse)

mutual
/-- The JSON data model (`null`, booleans, numbers, strings, arrays,
objects; object key order is significant).  A number denotes
`mant * 10 ^ pow`. -/
inductive JsValue where
  | null : JsValue
  | bool (b : Bool) : JsValue
  | num (mant : Int) (pow : Int) : JsValue
  | str (s : String) : JsValue
  | arr (elems : JsList) : JsValue
  | obj (fields : JsFields) : JsValue

/-- A list of JSON values (the payload of a JSON array). -/
inductive JsList where
  | nil : JsList
  | cons (hd : JsValue) (tl : JsList) : JsList

/-- An ordered association list of string keys to JSON values (the payload
of a JSON object). -/
inductive JsFields where
  | nil : JsFields
  | cons (key : String) (val : JsValue) (tl : JsFields) : JsFields
end

/-- Append a value at the end of a `JsList`. -/
def JsList.push : JsList → JsValue → JsList
  | .nil, v => .cons v .nil
  | .cons h t, v => .cons h (t.push v)

/-- Append a field at the end of a `JsFields`. -/
def JsFields.push : JsFields → String → JsValue → JsFields
  | .nil, k, v => .cons k v .nil
  | .cons k0 v0 t, k, v => .cons k0 v0 (t.push k v)

/-- JSON insignificant whitespace (ECMA-404: space, tab, line feed,
carriage return). -/
def jsonIsWs (c : Char) : Bool :=
  c = ' ' ∨ c = '\t' ∨ c = '\n' ∨ c = '\r'

/-- Drop leading JSON whitespace. -/
def skipWs : List Char → List Char
  | [] => []
  | c :: r => if jsonIsWs c then skipWs r else c :: r

/-- Value of a hexadecimal digit, if the character is one. -/
def hexDigitVal (c : Char) : Option Nat :=
  if '0' ≤ c ∧ c ≤ '9' then some (c.toNat - '0'.toNat)
  else if 'a' ≤ c ∧ c ≤ 'f' then some (c.toNat - 'a'.toNat + 10)
  else if 'A' ≤ c ∧ c ≤ 'F' then some (c.toNat - 'A'.toNat + 10)
  else none

/-- The character denoted by a single-character JSON escape, if legal. -/
def escCharOf (c : Char) : Option Char :=
  if c = '"' then some '"'
  else if c = '\\' then some '\\'
  else if c = '/' then some '/'
  else if c = 'b' then some '\x08'
  else if c = 'f' then some '\x0c'
  else if c = 'n' then some '\n'
  else if c = 'r' then some '\r'
  else if c = 't' then some '\t'
  else none

/-- Parse the body of a JSON string literal (the opening quote already
consumed): returns the decoded characters and the input after the closing
quote, or the unconsumed input at the offending position.  `fuel` bounds
the recursion; any `fuel ≥ length + 1` is enough. -/
def parseStringBody : Nat → List Char → Except (List Char) (List Char × List Char)
  | 0, cs => .error cs
  | _ + 1, [] => .error []
  | fuel + 1, c :: r =>
    if c = '"' then .ok ([], r)
    else if c = '\\' then
      match r with
      | [] => .error []
      | 'u' :: h1 :: h2 :: h3 :: h4 :: r2 =>
        match hexDigitVal h1, hexDigitVal h2, hexDigitVal h3, hexDigitVal h4 with
        | some a, some b, some c3, some d =>
          match parseStringBody fuel r2 with
          | .ok (s, rest) =>
            .ok (Char.ofNat (((a * 16 + b) * 16 + c3) * 16 + d) :: s, rest)
          | .error e => .error e
        | _, _, _, _ => .error r
      | e :: r2 =>
        match escCharOf e with
        | some d =>
          match parseStringBody fuel r2 with
          | .ok (s, rest) => .ok (d :: s, rest)
          | .error er => .error er
        | none => .error (e :: r2)
    else if c.toNat < 0x20 then .error (c :: r)
    else
      match parseStringBody fuel r with
      | .ok (s, rest) => .ok (c :: s, rest)
      | .error e => .error e

/-- Leading decimal digits of the input, and the rest. -/
def takeDigits : List Char → List Char × List Char
  | [] => ([], [])
  | c :: r =>
    if c.isDigit then
      let (ds, rest) := takeDigits r
      (c :: ds, rest)
    else ([], c :: r)

/-- Numeric value of a list of decimal digits. -/
def digitsToNat (ds : List Char) : Nat :=
  ds.foldl (fun a c => a * 10 + (c.toNat - '0'.toNat)) 0

/-- Integer part of a JSON number: `0`, or a nonzero digit followed by
digits (leading zeros are not allowed by the JSON grammar). -/
def parseIntPart : List Char → Except (List Char) (List Char × List Char)
  | [] => .error []
  | c :: r =>
    if c = '0' then .ok (['0'], r)
    else if c.isDigit then .ok (takeDigits (c :: r))
    else .error (c :: r)

/-- Optional fraction part of a JSON number: nothing, or `.` followed by at
least one digit.  Returns the fraction digits. -/
def parseFrac : List Char → Except (List Char) (List Char × List Char)
  | '.' :: r =>
    let (ds, rest) := takeDigits r
    if ds.isEmpty then .error rest else .ok (ds, rest)
  | cs => .ok ([], cs)

/-- Optional exponent part of a JSON number: nothing, or `e`/`E`, an
optional sign and at least one digit.  Returns the signed exponent. -/
def parseExp : List Char → Except (List Char) (Int × List Char)
  | [] => .ok (0, [])
  | c :: r =>
    if c = 'e' ∨ c = 'E' then
      let (sgn, r2) : Int × List Char :=
        match r with
        | '+' :: r3 => (1, r3)
        | '-' :: r3 => (-1, r3)
        | _ => (1, r)
      let (ds, rest) := takeDigits r2
      if ds.isEmpty then .error rest
      else .ok (sgn * Int.ofNat (digitsToNat ds), rest)
    else .ok (0, c :: r)

/-- Parse a JSON number (ECMA-404 grammar) from the head of the input. -/
def parseNumber (cs : List Char) : Except (List Char) (JsValue × List Char) :=
  let (neg, cs1) : Bool × List Char :=
    match cs with
    | '-' :: r => (true, r)
    | _ => (false, cs)
  match parseIntPart cs1 with
  | .error e => .error e
  | .ok (intDs, rest1) =>
    match parseFrac rest1 with
    | .error e => .error e
    | .ok (fracDs, rest2) =>
      match parseExp rest2 with
      | .error e => .error e
      | .ok (expV, rest3) =>
        let mantNat := digitsToNat (intDs ++ fracDs)
        let mant : Int := if neg then -(Int.ofNat mantNat) else Int.ofNat mantNat
        .ok (.num mant (expV - Int.ofNat fracDs.length), rest3)

/-- A stack frame of the `JSON.parse` pushdown machine: an array or an
object whose prefix has been parsed (for an object, also the key whose
value is being parsed). -/
inductive PFrame where
  | arr (elems : JsList) : PFrame
  | obj (fields : JsFields) (key : String) : PFrame

/-- The instruction of the `JSON.parse` pushdown machine: parse a value,
finish a completed value against the stack, or parse an object field
(`"key" :` — the input is already whitespace-skipped there). -/
inductive PInstr where
  | val (stack : List PFrame) : PInstr
  | close (v : JsValue) (stack : List PFrame) : PInstr
  | field (fields : JsFields) (stack : List PFrame) : PInstr

/-- One fueled run of the `JSON.parse` machine.  Every recursive call
consumes at least one input character, so `fuel = length + 2` always
suffices.  On failure the unconsumed input is returned, from which the
error offset can be recovered. -/
def parseStep : Nat → PInstr → List Char → Except (List Char) JsValue
  | 0, _, cs => .error cs
  | fuel + 1, .val stack, cs =>
    match skipWs cs with
    | [] => .error []
    | c :: r =>
      if c = '"' then
        match parseStringBody (r.length + 1) r with
        | .error e => .error e
        | .ok (chars, rest) =>
          parseStep fuel (.close (.str (String.mk chars)) stack) rest
      else if c = '{' then
        match skipWs r with
        | '}' :: r2 => parseStep fuel (.close (.obj .nil) stack) r2
        | r2 => parseStep fuel (.field .nil stack) r2
      else if c = '[' then
        match skipWs r with
        | ']' :: r2 => parseStep fuel (.close (.arr .nil) stack) r2
        | _ => parseStep fuel (.val (.arr .nil :: stack)) r
      else if c = 't' then
        match r with
        | 'r' :: 'u' :: 'e' :: r2 => parseStep fuel (.close (.bool true) stack) r2
        | _ => .error (c :: r)
      else if c = 'f' then
        match r with
        | 'a' :: 'l' :: 's' :: 'e' :: r2 => parseStep fuel (.close (.bool false) stack) r2
        | _ => .error (c :: r)
      else if c = 'n' then
        match r with
        | 'u' :: 'l' :: 'l' :: r2 => parseStep fuel (.close .null stack) r2
        | _ => .error (c :: r)
      else
        match parseNumber (c :: r) with
        | .error e => .error e
        | .ok (v, rest) => parseStep fuel (.close v stack) rest
  | fuel + 1, .close v stack, cs =>
    match stack with
    | [] =>
      match skipWs cs with
      | [] => .ok v
      | e => .error e
    | .arr elems :: stack2 =>
      match skipWs cs with
      | ',' :: r => parseStep fuel (.val (.arr (elems.push v) :: stack2)) r
      | ']' :: r => parseStep fuel (.close (.arr (elems.push v)) stack2) r
      | e => .error e
    | .obj fields key :: stack2 =>
      match skipWs cs with
      | ',' :: r => parseStep fuel (.field (fields.push key v) stack2) (skipWs r)
      | '}' :: r => parseStep fuel (.close (.obj (fields.push key v)) stack2) r
      | e => .error e
  | fuel + 1, .field fields stack, cs =>
    match cs with
    | '"' :: r =>
      match parseStringBody (r.length + 1) r with
      | .error e => .error e
      | .ok (chars, rest) =>
        match skipWs rest with
        | ':' :: r2 => parseStep fuel (.val (.obj fields (String.mk chars) :: stack)) r2
        | e => .error e
    | e => .error e

/-- Model of the JavaScript `JSON.parse` builtin: parse a complete JSON
text (leading and trailing whitespace allowed, nothing else).  On failure
the unconsumed input at the offending position is returned. -/
def jsonParse (s : String) : Except (List Char) JsValue :=
  parseStep (s.length + 2) (.val []) s.data

/-- Hexadecimal digit character for a value below 16. -/
def hexDigitChar (n : Nat) : Char :=
  Char.ofNat (if n < 10 then '0'.toNat + n else 'a'.toNat + (n - 10))

/-- `JSON.stringify` escaping of one string character. -/
def escJsonChar (c : Char) : List Char :=
  if c = '"' then ['\\', '"']
  else if c = '\\' then ['\\', '\\']
  else if c = '\n' then ['\\', 'n']
  else if c = '\r' then ['\\', 'r']
  else if c = '\t' then ['\\', 't']
  else if c = '\x08' then ['\\', 'b']
  else if c = '\x0c' then ['\\', 'f']
  else if c.toNat < 0x20 then
    let hi := hexDigitChar (c.toNat / 16)
    let lo := hexDigitChar (c.toNat % 16)
    '\\' :: 'u' :: '0' :: '0' :: hi :: [lo]
  else [c]

/-- Serialize a string as a JSON string literal, as `JSON.stringify` does. -/
def quoteJsonString (s : String) : String :=
  "\"" ++ String.mk (s.data.map escJsonChar).flatten ++ "\""

/-- A run of `n` zero characters. -/
def zerosStr (n : Nat) : String :=
  String.mk (List.replicate n '0')

/-- Decimal rendering of a model number `mant * 10 ^ pow`.  For integers
(`pow ≥ 0`) this agrees with JavaScript number printing; for fractional
values it prints the exact decimal without normalizing trailing zeros or
switching to exponent form, which no theorem below relies on. -/
def numToString (mant : Int) (pow : Int) : String :=
  if mant = 0 then "0"
  else if 0 ≤ pow then toString mant ++ zerosStr pow.toNat
  else
    let ds := (toString mant.natAbs).data
    let k := (-pow).toNat
    let sign := if mant < 0 then "-" else ""
    if k < ds.length then
      sign ++ String.mk (ds.take (ds.length - k)) ++ "." ++
        String.mk (ds.drop (ds.length - k))
    else sign ++ "0." ++ zerosStr (k - ds.length) ++ String.mk ds

/-- Indentation: `unit * depth` spaces. -/
def indentStr (unit depth : Nat) : String :=
  String.mk (List.replicate (unit * depth) ' ')

mutual
/-- Pretty-print a JSON value as `JSON.stringify(v, null, unit)` does, at
nesting depth `depth`. -/
def prettyV (unit depth : Nat) : JsValue → String
  | .null => "null"
  | .bool true => "true"
  | .bool false => "false"
  | .num m p => numToString m p
  | .str s => quoteJsonString s
  | .arr es =>
    match es with
    | .nil => "[]"
    | _ => "[\n" ++ prettyL unit (depth + 1) es ++ "\n" ++ indentStr unit depth ++ "]"
  | .obj fs =>
    match fs with
    | .nil => "\x7b\x7d"
    | _ => "\x7b\n" ++ prettyF unit (depth + 1) fs ++ "\n" ++ indentStr unit depth ++ "\x7d"

/-- Pretty-print array elements, one per line, comma-separated. -/
def prettyL (unit depth : Nat) : JsList → String
  | .nil => ""
  | .cons h t =>
    match t with
    | .nil => indentStr unit depth ++ prettyV unit depth h
    | _ => indentStr unit depth ++ prettyV unit depth h ++ ",\n" ++ prettyL unit depth t

/-- Pretty-print object fields, one per line, comma-separated, with
`"key": value` separators as `JSON.stringify` emits them. -/
def prettyF (unit depth : Nat) : JsFields → String
  | .nil => ""
  | .cons k v t =>
    match t with
    | .nil => indentStr unit depth ++ quoteJsonString k ++ ": " ++ prettyV unit depth v
    | _ => indentStr unit depth ++ quoteJsonString k ++ ": " ++ prettyV unit depth v ++
        ",\n" ++ prettyF unit depth t
end

/-- Model of `JSON.stringify(v, null, indent)`. -/
def stringify (indent : Nat) (v : JsValue) : String :=
  prettyV indent 0 v

/-- Model of the implicit JavaScript string coercion `String(v)` that
`JSON.parse` applies to a non-string argument.  Only the string case is
reachable in this development (`jsonParse` of a text starting with a quote
always yields a string, see `jsonParse_quote_isStr`); the other cases model
the JavaScript `toString` behaviour coarsely (arrays join their elements,
plain objects print `[object Object]`). -/
def jsToString : JsValue → String
  | .str s => s
  | .null => "null"
  | .bool true => "true"
  | .bool false => "false"
  | .num m p => numToString m p
  | .arr _ => ""
  | .obj _ => "[object Object]"

/-- Modelled from the spec: `isArrayOrObject` is imported from
`@/utils/json`, whose module is not among the sources; §4.5 calls a value
composite exactly when it is an object or an array. -/
def isArrayOrObject : JsValue → Bool
  | .arr _ => true
  | .obj _ => true
  | _ => false

/-- 1-based line and column of a character offset, obtained by scanning the
newline characters of the first `offset` characters of the text. -/
def lineColGo : List Char → Nat → Nat → Nat → Nat × Nat
  | _, 0, line, col => (line, col)
  | [], _ + 1, line, col => (line, col)
  | c :: r, n + 1, line, col =>
    if c = '\n' then lineColGo r n (line + 1) 1 else lineColGo r n line (col + 1)

/-- The structured parse-error value produced by the diagnostics extractor
(`JsonErrorInfo` in `@/utils/json`): a message and a 1-based line and
column, with `line = 0` meaning that no localized position is available. -/
structure JsonErrorInfo where
  message : String
  line : Nat
  column : Nat
deriving DecidableEq

/-- Modelled from the spec: `jsonParseError` (the JSON-dialect diagnostics
extractor of §4.1) is imported from `@/utils/json`, whose module is not
among the sources.  It parses strictly, returns `none` on success, and on
failure converts the parser's character offset to a 1-based line and column
by scanning newlines in the original text. -/
def jsonParseError (text : String) : Option JsonErrorInfo :=
  match jsonParse text with
  | .ok _ => none
  | .error rest =>
    let offset := text.length - rest.length
    let lc := lineColGo text.data offset 1 1
    some { message := "JSON Parse error", line := lc.1, column := lc.2 }

/-- The two key orders of the field sorter (the TS union `"asc" | "desc"`). -/
inductive SortTy where
  | asc : SortTy
  | desc : SortTy

/-- Strict lexicographic order on character lists by code point (the order
JavaScript's default string sort uses, restricted to the code points
arising here). -/
def strLtChars : List Char → List Char → Bool
  | [], [] => false
  | [], _ :: _ => true
  | _ :: _, [] => false
  | a :: as, b :: bs =>
    if a.toNat < b.toNat then true
    else if b.toNat < a.toNat then false
    else strLtChars as bs

/-- Strict lexicographic order on strings by code point. -/
def strLt (a b : String) : Bool :=
  strLtChars a.data b.data

/-- Key comparison used by the sorter: case-sensitive code-point order,
ascending or descending. -/
def fieldCmp : SortTy → String → String → Bool
  | .asc, a, b => strLt a b
  | .desc, a, b => strLt b a

/-- Insert a field into a key-sorted field list. -/
def insertFieldSorted (cmp : String → String → Bool) (k : String) (v : JsValue) :
    JsFields → JsFields
  | .nil => .cons k v .nil
  | .cons k2 v2 t =>
    if cmp k k2 then .cons k v (.cons k2 v2 t)
    else .cons k2 v2 (insertFieldSorted cmp k v t)

/-- Insertion sort of an object's fields by key. -/
def sortFieldsBy (cmp : String → String → Bool) : JsFields → JsFields
  | .nil => .nil
  | .cons k v t => insertFieldSorted cmp k v (sortFieldsBy cmp t)

mutual
/-- Modelled from the spec: the recursive walk of the key sorter (§4.3) —
object keys are re-emitted in sorted order at every nesting level, array
element order is preserved, scalars pass through, values are recursed into
first (bottom-up). -/
def sortValue (cmp : String → String → Bool) : JsValue → JsValue
  | .arr es => .arr (sortList cmp es)
  | .obj fs => .obj (sortFieldsBy cmp (sortFieldsVals cmp fs))
  | v => v

/-- Sort array elements internally, preserving their order. -/
def sortList (cmp : String → String → Bool) : JsList → JsList
  | .nil => .nil
  | .cons h t => .cons (sortValue cmp h) (sortList cmp t)

/-- Sort the values of an object's fields internally, preserving keys. -/
def sortFieldsVals (cmp : String → String → Bool) : JsFields → JsFields
  | .nil => .nil
  | .cons k v t => .cons k (sortValue cmp v) (sortFieldsVals cmp t)
end

/-- Modelled from the spec: `sortJson` (the key sorter of §4.3) is imported
from `@/utils/json`, whose module is not among the sources; it returns a
pretty-printed serialization (stable 2-space indentation) of the value with
all object keys recursively sorted. -/
def sortJson (v : JsValue) (ty : SortTy) : String :=
  stringify 2 (sortValue (fieldCmp ty) v)

/-- The scanning state of the comment stripper: outside any construct,
inside a string literal, inside a `//` line comment, or inside a `/* */`
block comment. -/
inductive SMode where
  | norm : SMode
  | instring : SMode
  | incomment : SMode
  | inblock : SMode

/-- Modelled from the spec: the scanner of `removeJsonComments` (§4.4),
which is imported from `@/utils/json`, whose module is not among the
sources.  It removes `//` line comments (keeping the terminating newline)
and `/* */` block comments, tracks quote state and escape sequences so
comment markers inside string literals are left untouched, and passes
unterminated strings or comments through to the end of input. -/
def stripGo : SMode → List Char → List Char
  | _, [] => []
  | .norm, '"' :: r => '"' :: stripGo .instring r
  | .norm, '/' :: '/' :: r => stripGo .incomment r
  | .norm, '/' :: '*' :: r => stripGo .inblock r
  | .norm, c :: r => c :: stripGo .norm r
  | .instring, '\\' :: c :: r => '\\' :: c :: stripGo .instring r
  | .instring, '"' :: r => '"' :: stripGo .norm r
  | .instring, c :: r => c :: stripGo .instring r
  | .incomment, '\n' :: r => '\n' :: stripGo .norm r
  | .incomment, _ :: r => stripGo .incomment r
  | .inblock, '*' :: '/' :: r => stripGo .norm r
  | .inblock, _ :: r => stripGo .inblock r

/-- Modelled from the spec: `removeJsonComments` (`stripComments`, §4.4). -/
def removeJsonComments (text : String) : String :=
  String.mk (stripGo .norm text.data)

/-- The state of the Monaco JSON editor component that the embedded
operations read and write: whether the editor instance exists yet
(`editorRef.current`), the buffer text and the widget's undo stack (spec
§6 boundary contract: full-content replacement is atomic and undoable as
one step), the model's language id, the `parseJsonError` banner state, the
error-details modal, the revealed line and error-line decoration, and the
font size. -/
structure EditorState where
  editorReady : Bool
  buffer : String
  undoStack : List String
  languageId : String
  parseJsonError : Option JsonErrorInfo
  errorModalOpen : Bool
  revealedLine : Option Nat
  decorations : Option Nat
  fontSize : Nat
deriving DecidableEq

/-- `setEditorValue` (part_000:516-532): one `executeEdits` over the full
model range, keeping history so one ctrl+z undoes it — modelled as
replacing the buffer and pushing a single undo entry; a no-op when the
editor instance does not exist. -/
def setEditorValue (jsonText : String) (st : EditorState) : EditorState :=
  if st.editorReady then
    { st with buffer := jsonText, undoStack := st.buffer :: st.undoStack }
  else st

/-- One undo step of the editor widget (spec §6: `replaceAll` is undoable
as one step): restore the buffer saved by the latest atomic edit. -/
def undo (st : EditorState) : EditorState :=
  match st.undoStack with
  | [] => st
  | prev :: rest => { st with buffer := prev, undoStack := rest }

/-- `editorValueValidate` (part_000:364-391), parameterized by the two
dialect checkers it delegates to (`jsonParseError` and `json5ParseError`
from `@/utils/json`): blank text clears the error and validates; otherwise
the checker selected by the model's language id runs and the error state
is set or cleared from its result.  The boolean is the returned validity. -/
def editorValueValidate (pj pj5 : String → Option JsonErrorInfo)
    (val : String) (st : EditorState) : EditorState × Bool :=
  if jsTrim val = "" then ({ st with parseJsonError := none }, true)
  else
    let jsonErr :=
      if st.editorReady ∧ st.languageId = "json5" then pj5 val else pj val
    match jsonErr with
    | some e => ({ st with parseJsonError := some e }, false)
    | none => ({ st with parseJsonError := none }, true)

/-- `autoFix` (part_000:489-513), parameterized by the external
`jsonrepair` heuristic (`none` models a throw): an empty buffer only warns;
on repair success the buffer is replaced through `setEditorValue`, the
error-details modal is closed and the error state cleared; on a repair
throw the catch block only reports failure.  The boolean is the returned
success. -/
def autoFix (repair : String → Option String) (st : EditorState) :
    EditorState × Bool :=
  let jsonText := if st.editorReady then st.buffer else ""
  if jsonText = "" then (st, false)
  else
    match repair jsonText with
    | none => (st, false)
    | some repaired =>
      let st1 := setEditorValue repaired st
      ({ st1 with errorModalOpen := false, parseJsonError := none }, true)

/-- `highlightErrorLine` (part_000:442-474): reveal the line in the editor
and install a fresh whole-line decoration (the 5-second auto-removal of the
decoration is a later event, not part of this step). -/
def highlightErrorLine (lineNumber : Nat) (st : EditorState) :
    EditorState × Bool :=
  if st.editorReady then
    ({ st with revealedLine := some lineNumber, decorations := some lineNumber },
      true)
  else (st, false)

/-- `goToErrorLine` (part_000:477-487): with no stored parse error, or a
stored line of 0, only the failure toast is shown; otherwise the
error-details modal is closed and the stored line revealed and highlighted.
The boolean models which toast (success or failure) is shown. -/
def goToErrorLine (st : EditorState) : EditorState × Bool :=
  match st.parseJsonError with
  | none => (st, false)
  | some e =>
    if e.line ≤ 0 then (st, false)
    else
      let st1 := { st with errorModalOpen := false }
      ((highlightErrorLine e.line st1).1, true)

/-- `formatModelByUnEscapeJson` (part_000:541-568): wrap the buffer text in
quotes, `JSON.parse` it once to peel one layer of escaping, `JSON.parse`
the result again, reject non-composite results, and on success write the
4-space pretty-printed value back through `setEditorValue`.  The returned
string is the error message, `""` meaning success (`JSON.parse` only ever
throws `SyntaxError`, so the generic catch branch of the source is
unreachable). -/
def formatModelByUnEscapeJson (jsonText : String) (st : EditorState) :
    String × EditorState :=
  if jsonText = "" then ("暂无数据", st)
  else
    let jsonStr := "\"" ++ jsonText ++ "\""
    match jsonParse jsonStr with
    | .error _ => ("不是有效的转义 JSON 字符串，无法进行解码操作", st)
    | .ok unescapedJson =>
      match jsonParse (jsToString unescapedJson) with
      | .error _ => ("不是有效的转义 JSON 字符串，无法进行解码操作", st)
      | .ok unescapedJsonObject =>
        if ¬ isArrayOrObject unescapedJsonObject then
          ("不是有效的 JSON 数据，无法进行解码操作", st)
        else ("", setEditorValue (stringify 4 unescapedJsonObject) st)

/-- The key of the `moreAction` handler (the TS union
`"unescape" | "del_comment"`). -/
inductive MoreActionKey where
  | unescape : MoreActionKey
  | del_comment : MoreActionKey

/-- `moreAction` (part_000:672-697): dispatch on the action key; the
unescape branch fails iff `formatModelByUnEscapeJson` returned an error
message, the comment-removal branch always rewrites the buffer and
succeeds. -/
def moreAction (k : MoreActionKey) (st : EditorState) : EditorState × Bool :=
  if st.editorReady then
    let val := st.buffer
    match k with
    | .unescape =>
      let r := formatModelByUnEscapeJson val st
      if r.1 ≠ "" then (r.2, false) else (r.2, true)
    | .del_comment => (setEditorValue (removeJsonComments val) st, true)
  else (st, false)

/-- `fieldSort` (part_000:651-670), parameterized by the dialect checkers
used by the validation it runs first: validate, then `JSON.parse` the
buffer (`none` models the uncaught throw, unreachable for json-language
buffers that just validated) and write the sorted serialization back.  The
boolean is the returned success. -/
def fieldSort (pj pj5 : String → Option JsonErrorInfo) (ty : SortTy)
    (st : EditorState) : Option (EditorState × Bool) :=
  if st.editorReady then
    let val := st.buffer
    let r := editorValueValidate pj pj5 val st
    if r.2 = false then some (r.1, false)
    else
      match jsonParse val with
      | .error _ => none
      | .ok jsonObj =>
        match ty with
        | .asc => some (setEditorValue (sortJson jsonObj .asc) r.1, true)
        | .desc => some (setEditorValue (sortJson jsonObj .desc) r.1, true)
  else some (st, false)

/-- The debounced-validation timer of the content-change listener
(part_000:339-354): at most one pending scheduled validation, holding its
due time and the text captured for it. -/
structure DebounceState where
  pending : Option (Nat × String)
deriving DecidableEq

/-- One content-change event at time `now` with current text `val`
(part_000:339-354): for a json or json5 model the pending timeout is
cleared and a new 1000ms one scheduled with this text; other languages
leave the timer alone. -/
def contentChangeEvent (languageId : String) (now : Nat) (val : String)
    (ds : DebounceState) : DebounceState :=
  if languageId = "json" ∨ languageId = "json5" then
    { pending := some (now + 1000, val) }
  else ds

/-- A tab of the tab store (useTabStore). -/
structure TabItem where
  key : String
  title : String
  content : String
  closable : Bool
deriving DecidableEq

/-- The tab store state (useTabStore): the tab list, the active tab key and
the next fresh key. -/
structure TabStore where
  tabs : List TabItem
  activeTabKey : String
  nextKey : Nat
deriving DecidableEq

/-- The single default tab the store is created with and reset to. -/
def defaultTab : TabItem :=
  { key := "1", title := "New Tab 1", content := "首页内容", closable := true }

/-- `closeAllTabs` (store): reset to the single default tab. -/
def closeAllTabs (st : TabStore) : TabStore :=
  { st with tabs := [defaultTab], activeTabKey := "1", nextKey := 2 }

/-- JavaScript `x || d` for an optional string (`undefined` and `""` are
falsy). -/
def jsOrStr (o : Option String) (d : String) : String :=
  match o with
  | none => d
  | some s => if s = "" then d else s

/-- `closeTab` (store): with a single tab left, delegate to `closeAllTabs`;
otherwise drop every tab with the given key and, when the closed tab was
the active one, re-point `activeTabKey` at the last remaining tab
(`updatedTabs[updatedTabs.length - 1]?.key || "1"`). -/
def closeTab (keyToRemove : String) (st : TabStore) : TabStore :=
  if st.tabs.length = 1 then closeAllTabs st
  else
    let updatedTabs := st.tabs.filter (fun t => t.key ≠ keyToRemove)
    let newActiveTab :=
      if keyToRemove = st.activeTabKey then
        jsOrStr (updatedTabs.getLast?.map (fun t => t.key)) "1"
      else st.activeTabKey
    { st with tabs := updatedTabs, activeTabKey := newActiveTab }

/-- C5: for every text that is empty or whitespace-only, validation clears
the parse-error state to `none` and returns `true`, for every possible pair
of dialect checkers — so neither the JSON nor the JSON5 checker is
consulted. -/
theorem editorValueValidate_blank (pj pj5 : String → Option JsonErrorInfo)
    (val : String) (st : EditorState) (h : jsTrim val = "") :
    editorValueValidate pj pj5 val st = ({ st with parseJsonError := none }, true) := by
  simp [editorValueValidate, h]

/-- Witness for `editorValueValidate_blank` at whitespace-only text and
checkers that would report an error if they were consulted. -/
theorem editorValueValidate_blank_witness :
    editorValueValidate (fun _ => some { message := "m", line := 1, column := 1 })
      (fun _ => some { message := "m", line := 1, column := 1 }) " \t\n "
      { editorReady := true, buffer := " \t\n ", undoStack := [],
        languageId := "json",
        parseJsonError := some { message := "old", line := 2, column := 2 },
        errorModalOpen := false, revealedLine := none, decorations := none,
        fontSize := 14 } =
    ({ editorReady := true, buffer := " \t\n ", undoStack := [],
       languageId := "json", parseJsonError := none, errorModalOpen := false,
       revealedLine := none, decorations := none, fontSize := 14 }, true) :=
  editorValueValidate_blank _ _ _ _ rfl

/-- C3: on an empty buffer, `autoFix` fails and leaves the state untouched
for every possible behaviour of the repair heuristic (which is therefore
never consulted), while validation of the same empty input clears the
error state and reports validity. -/
theorem autoFix_empty_input (repair : String → Option String)
    (pj pj5 : String → Option JsonErrorInfo) (st : EditorState)
    (h : st.buffer = "") :
    autoFix repair st = (st, false)
    ∧ editorValueValidate pj pj5 "" st = ({ st with parseJsonError := none }, true) := by
  constructor
  · simp [autoFix, h]
  · simp [editorValueValidate, show jsTrim "" = "" from rfl]

/-- Witness for `autoFix_empty_input` on a concrete empty-buffer state and
a repair heuristic that would return a value if it were consulted. -/
theorem autoFix_empty_input_witness :
    autoFix (fun _ => some "\x7b\x7d")
      { editorReady := true, buffer := "", undoStack := [], languageId := "json",
        parseJsonError := none, errorModalOpen := false, revealedLine := none,
        decorations := none, fontSize := 14 } =
      ({ editorReady := true, buffer := "", undoStack := [], languageId := "json",
         parseJsonError := none, errorModalOpen := false, revealedLine := none,
         decorations := none, fontSize := 14 }, false) :=
  (autoFix_empty_input (fun _ => some "\x7b\x7d") (fun _ => none) (fun _ => none) _ rfl).1

/-- C9: when the repair heuristic throws on a non-empty buffer, `autoFix`
returns `false` and the entire state — in particular the buffer and the
parse-error state — is exactly as before the call. -/
theorem autoFix_repair_throw (repair : String → Option String)
    (st : EditorState) (hb : st.buffer ≠ "")
    (hr : repair st.buffer = none) :
    autoFix repair st = (st, false) := by
  by_cases hready : st.editorReady
  · simp [autoFix, hready, hb, hr]
  · simp [autoFix, hready]

/-- Witness for `autoFix_repair_throw` on a malformed buffer whose error
banner is set, with an always-throwing repair heuristic. -/
theorem autoFix_repair_throw_witness :
    autoFix (fun _ => none)
      { editorReady := true, buffer := "not json", undoStack := ["old"],
        languageId := "json",
        parseJsonError := some { message := "e", line := 1, column := 1 },
        errorModalOpen := true, revealedLine := none, decorations := none,
        fontSize := 14 } =
      ({ editorReady := true, buffer := "not json", undoStack := ["old"],
         languageId := "json",
         parseJsonError := some { message := "e", line := 1, column := 1 },
         errorModalOpen := true, revealedLine := none, decorations := none,
         fontSize := 14 }, false) :=
  autoFix_repair_throw (fun _ => none) _ (by decide) rfl

/-- C2: when repair succeeds on a non-empty buffer, the whole buffer is
replaced by the repaired text through one atomic, undoable edit (exactly
one undo entry is pushed), the error state is cleared (banner and details
modal), nothing else changes, and a single undo step restores the previous
buffer content. -/
theorem autoFix_success_atomic (repair : String → Option String)
    (st : EditorState) (repaired : String)
    (hready : st.editorReady = true) (hb : st.buffer ≠ "")
    (hr : repair st.buffer = some repaired) :
    autoFix repair st =
      ({ st with buffer := repaired, undoStack := st.buffer :: st.undoStack,
                 parseJsonError := none, errorModalOpen := false }, true)
    ∧ undo (autoFix repair st).1 =
      { st with parseJsonError := none, errorModalOpen := false } := by
  have h1 : autoFix repair st =
      ({ st with buffer := repaired, undoStack := st.buffer :: st.undoStack,
                 parseJsonError := none, errorModalOpen := false }, true) := by
    simp [autoFix, setEditorValue, hready, hb, hr]
  exact ⟨h1, by rw [h1]; simp [undo]⟩

/-- Witness for `autoFix_success_atomic`: a concrete malformed buffer, a
repair heuristic returning a fixed text, and the undo round-trip. -/
theorem autoFix_success_atomic_witness :
    autoFix (fun _ => some "\x7b\"a\": 1\x7d")
      { editorReady := true, buffer := "\x7ba:1,\x7d", undoStack := [],
        languageId := "json",
        parseJsonError := some { message := "e", line := 1, column := 2 },
        errorModalOpen := true, revealedLine := none, decorations := none,
        fontSize := 14 } =
      ({ editorReady := true, buffer := "\x7b\"a\": 1\x7d", undoStack := ["\x7ba:1,\x7d"],
         languageId := "json", parseJsonError := none, errorModalOpen := false,
         revealedLine := none, decorations := none, fontSize := 14 }, true) :=
  (autoFix_success_atomic (fun _ => some "\x7b\"a\": 1\x7d") _ "\x7b\"a\": 1\x7d" rfl
    (by decide) rfl).1

/-- C6: jump-to-error refuses gracefully exactly when no localized position
is available — with no stored parse error, or a stored line below 1, it
reports failure and changes nothing (no scroll, no highlight); with a
stored line ≥ 1 it closes the details modal and reveals and highlights
that line. -/
theorem goToErrorLine_spec (st : EditorState) :
    ((st.parseJsonError = none ∨
        ∃ e, st.parseJsonError = some e ∧ e.line = 0) →
      goToErrorLine st = (st, false))
    ∧ (∀ e, st.parseJsonError = some e → 1 ≤ e.line → st.editorReady = true →
      goToErrorLine st =
        ({ st with errorModalOpen := false, revealedLine := some e.line,
                   decorations := some e.line }, true)) := by
  constructor
  · rintro (h | ⟨e, he, hl⟩)
    · simp [goToErrorLine, h]
    · simp [goToErrorLine, he, hl]
  · intro e he hl hready
    have hl0 : ¬ e.line ≤ 0 := by omega
    simp [goToErrorLine, highlightErrorLine, he, hl0, hready]

/-- Witness for `goToErrorLine_spec`: a stored error at line 3 is revealed
and highlighted and the details modal closed. -/
theorem goToErrorLine_spec_witness :
    goToErrorLine
      { editorReady := true, buffer := "\x7b", undoStack := [],
        languageId := "json",
        parseJsonError := some { message := "e", line := 3, column := 4 },
        errorModalOpen := true, revealedLine := none, decorations := none,
        fontSize := 14 } =
      ({ editorReady := true, buffer := "\x7b", undoStack := [],
         languageId := "json",
         parseJsonError := some { message := "e", line := 3, column := 4 },
         errorModalOpen := false, revealedLine := some 3, decorations := some 3,
         fontSize := 14 }, true) :=
  (goToErrorLine_spec _).2 { message := "e", line := 3, column := 4 } rfl
    (by decide) rfl

/-- C4: on a json or json5 buffer every content-change event replaces the
pending debounce timer (cancelling the previous one) with a fresh one due
1000ms later carrying the event's text, so after any non-empty burst of
edits exactly one validation is pending — the one holding the last event's
text (last-writer-wins); a model with at most one pending task admits no
overlapping validation runs. -/
theorem debounce_last_writer_wins (languageId : String)
    (hl : languageId = "json" ∨ languageId = "json5")
    (es : List (Nat × String)) (lastE : Nat × String)
    (h : es.getLast? = some lastE) (ds : DebounceState) :
    (∀ now val ds2, (contentChangeEvent languageId now val ds2).pending =
        some (now + 1000, val))
    ∧ (es.foldl (fun s e => contentChangeEvent languageId e.1 e.2 s) ds).pending =
        some (lastE.1 + 1000, lastE.2) := by
  have hstep : ∀ now val ds2, (contentChangeEvent languageId now val ds2).pending =
      some (now + 1000, val) := by
    intro now val ds2
    rcases hl with rfl | rfl <;> simp [contentChangeEvent]
  refine ⟨hstep, ?_⟩
  induction es generalizing ds with
  | nil => simp at h
  | cons a t ih =>
    cases t with
    | nil =>
      simp [List.getLast?] at h
      subst h
      simpa using hstep a.1 a.2 ds
    | cons b t2 =>
      rw [List.foldl_cons]
      exact ih (by simpa using h) _

/-- Witness for `debounce_last_writer_wins`: a three-event burst ends with
only the last event's text pending, due 1000ms after the last event. -/
theorem debounce_last_writer_wins_witness :
    (([(0, "a"), (400, "ab"), (900, "abc")] : List (Nat × String)).foldl
        (fun s e => contentChangeEvent "json" e.1 e.2 s) { pending := none }).pending =
      some (1900, "abc") :=
  (debounce_last_writer_wins "json" (Or.inl rfl)
    [(0, "a"), (400, "ab"), (900, "abc")] (900, "abc") rfl { pending := none }).2

/-- C7: sorting the fields of the buffer `{"b":1,"a":2}` ascending rewrites
the buffer to the pretty-printed text with keys in ascending code-point
order (2-space indentation), and descending keeps `b` before `a`; the
sorter produces a string serialization written back as one edit (the
previous text moves to the undo stack), not a mutated value.  The result
does not depend on the JSON5 dialect checker. -/
theorem fieldSort_scenario (pj5 : String → Option JsonErrorInfo) :
    fieldSort jsonParseError pj5 .asc
      { editorReady := true, buffer := "\x7b\"b\":1,\"a\":2\x7d", undoStack := [],
        languageId := "json", parseJsonError := none, errorModalOpen := false,
        revealedLine := none, decorations := none, fontSize := 14 } =
      some ({ editorReady := true, buffer := "\x7b\n  \"a\": 2,\n  \"b\": 1\n\x7d",
              undoStack := ["\x7b\"b\":1,\"a\":2\x7d"], languageId := "json",
              parseJsonError := none, errorModalOpen := false,
              revealedLine := none, decorations := none, fontSize := 14 }, true)
    ∧ fieldSort jsonParseError pj5 .desc
      { editorReady := true, buffer := "\x7b\"b\":1,\"a\":2\x7d", undoStack := [],
        languageId := "json", parseJsonError := none, errorModalOpen := false,
        revealedLine := none, decorations := none, fontSize := 14 } =
      some ({ editorReady := true, buffer := "\x7b\n  \"b\": 1,\n  \"a\": 2\n\x7d",
              undoStack := ["\x7b\"b\":1,\"a\":2\x7d"], languageId := "json",
              parseJsonError := none, errorModalOpen := false,
              revealedLine := none, decorations := none, fontSize := 14 }, true) :=
  ⟨rfl, rfl⟩

/-- Finishing a value against an empty stack either accepts it (when only
whitespace remains) or fails; it never produces a different value. -/
theorem parseStep_close_nil_ok {f : Nat} {v w : JsValue} {cs : List Char}
    (h : parseStep f (.close v []) cs = .ok w) : w = v := by
  cases f with
  | zero => simp [parseStep] at h
  | succ f2 =>
    have hstep : parseStep (f2 + 1) (.close v []) cs =
        (match skipWs cs with
         | [] => .ok v
         | e => .error e) := rfl
    rw [hstep] at h
    rcases hcs : skipWs cs with _ | ⟨c, r⟩ <;> rw [hcs] at h
    · exact (Except.ok.inj h).symm
    · simp at h

/-- `JSON.parse` of a text that begins with a double quote can only
succeed with a string value: parsing `"` + t + `"` never yields anything
but a (top-level) string. -/
theorem jsonParse_quote_isStr (t : String) (v : JsValue)
    (h : jsonParse ("\"" ++ t ++ "\"") = .ok v) : ∃ s, v = .str s := by
  have hdata : ("\"" ++ t ++ "\"").data = '"' :: (t.data ++ ['"']) := by
    simp
  have hlen : ("\"" ++ t ++ "\"").length = t.length + 2 := by
    rw [String.length_append, String.length_append,
      show ("\"" : String).length = 1 from rfl]
    omega
  unfold jsonParse at h
  rw [hdata, hlen] at h
  have hstep : parseStep (t.length + 2 + 2) (.val []) ('"' :: (t.data ++ ['"'])) =
      (match parseStringBody ((t.data ++ ['"']).length + 1) (t.data ++ ['"']) with
       | .error e => .error e
       | .ok (chars, rest) =>
         parseStep (t.length + 3) (.close (.str (String.mk chars)) []) rest) := by
    rfl
  rw [hstep] at h
  rcases hp : parseStringBody ((t.data ++ ['"']).length + 1) (t.data ++ ['"']) with e | pr
  · rw [hp] at h; simp at h
  · rw [hp] at h
    exact ⟨String.mk pr.1, parseStep_close_nil_ok h⟩

/-- The unescape worker succeeds exactly when the quoted buffer parses as a
JSON string whose content parses again as a composite JSON value, and on
any failure it returns the state untouched. -/
theorem formatModelByUnEscapeJson_spec (t : String) (st : EditorState) :
    ((formatModelByUnEscapeJson t st).1 = "" ↔
      ∃ s v, jsonParse ("\"" ++ t ++ "\"") = .ok (.str s)
        ∧ jsonParse s = .ok v ∧ isArrayOrObject v = true)
    ∧ ((formatModelByUnEscapeJson t st).1 ≠ "" →
      (formatModelByUnEscapeJson t st).2 = st) := by
  by_cases ht : t = ""
  · subst ht
    have hmsg : formatModelByUnEscapeJson "" st = ("暂无数据", st) := rfl
    rw [hmsg]
    refine ⟨⟨fun h => ?_, ?_⟩, fun _ => rfl⟩
    · simp at h
    · rintro ⟨s, v, h1, h2, -⟩
      rw [show jsonParse ("\"" ++ "" ++ "\"") = .ok (.str "") from rfl] at h1
      have hs : s = "" := (JsValue.str.inj (Except.ok.inj h1)).symm
      subst hs
      rw [show jsonParse "" = .error [] from rfl] at h2
      simp at h2
  · rcases hp : jsonParse ("\"" ++ t ++ "\"") with e | u
    · refine ⟨⟨fun h => ?_, ?_⟩, fun _ => ?_⟩
      · simp [formatModelByUnEscapeJson, ht, hp] at h
      · rintro ⟨s, v, h1, -, -⟩
        simp at h1
      · simp [formatModelByUnEscapeJson, ht, hp]
    · obtain ⟨s, rfl⟩ := jsonParse_quote_isStr t u hp
      rcases hq : jsonParse s with e2 | v
      · refine ⟨⟨fun h => ?_, ?_⟩, fun _ => ?_⟩
        · simp [formatModelByUnEscapeJson, ht, hp, jsToString, hq] at h
        · rintro ⟨s2, v, h1, h2, -⟩
          have hs2 : s2 = s := (JsValue.str.inj (Except.ok.inj h1)).symm
          subst hs2
          rw [hq] at h2
          simp at h2
        · simp [formatModelByUnEscapeJson, ht, hp, jsToString, hq]
      · by_cases hA : isArrayOrObject v = true
        · refine ⟨⟨fun _ => ⟨s, v, rfl, hq, hA⟩, fun _ => ?_⟩, fun hne => ?_⟩
          · simp [formatModelByUnEscapeJson, ht, hp, jsToString, hq, hA]
          · exact absurd
              (by simp [formatModelByUnEscapeJson, ht, hp, jsToString, hq, hA]) hne
        · refine ⟨⟨fun h => ?_, ?_⟩, fun _ => ?_⟩
          · simp [formatModelByUnEscapeJson, ht, hp, jsToString, hq, hA] at h
          · rintro ⟨s2, v2, h1, h2, h3⟩
            have hs2 : s2 = s := (JsValue.str.inj (Except.ok.inj h1)).symm
            subst hs2
            rw [hq] at h2
            have hv : v = v2 := Except.ok.inj h2
            subst hv
            exact absurd h3 hA
          · simp [formatModelByUnEscapeJson, ht, hp, jsToString, hq, hA]

/-- C1: for every buffer text, the unescape action succeeds exactly when
the quoted buffer parses as a JSON string literal whose content parses
again as JSON yielding a composite (object or array) value; whenever
either parse fails or the final value is a scalar the action reports
failure and the state — in particular the buffer — is unchanged. -/
theorem moreAction_unescape_spec (st : EditorState)
    (hready : st.editorReady = true) :
    ((moreAction .unescape st).2 = true ↔
      ∃ s v, jsonParse ("\"" ++ st.buffer ++ "\"") = .ok (.str s)
        ∧ jsonParse s = .ok v ∧ isArrayOrObject v = true)
    ∧ ((moreAction .unescape st).2 = false → (moreAction .unescape st).1 = st) := by
  obtain ⟨hiff, hframe⟩ := formatModelByUnEscapeJson_spec st.buffer st
  by_cases hmsg : (formatModelByUnEscapeJson st.buffer st).1 = ""
  · have h2 : moreAction .unescape st =
        ((formatModelByUnEscapeJson st.buffer st).2, true) := by
      simp [moreAction, hready, hmsg]
    rw [h2]
    refine ⟨⟨fun _ => hiff.mp hmsg, fun _ => rfl⟩, fun hc => ?_⟩
    simp at hc
  · have h2 : moreAction .unescape st =
        ((formatModelByUnEscapeJson st.buffer st).2, false) := by
      simp [moreAction, hready, hmsg]
    rw [h2]
    refine ⟨⟨fun hc => ?_, fun hr => ?_⟩, fun _ => hframe hmsg⟩
    · simp at hc
    · exact absurd (hiff.mpr hr) hmsg

/-- Witness for `moreAction_unescape_spec`: the buffer `x` (whose unescaped
content is not JSON) makes the action fail and leaves the state exactly as
it was. -/
theorem moreAction_unescape_spec_witness :
    (moreAction .unescape
      { editorReady := true, buffer := "x", undoStack := [], languageId := "json",
        parseJsonError := none, errorModalOpen := false, revealedLine := none,
        decorations := none, fontSize := 14 }).1 =
      { editorReady := true, buffer := "x", undoStack := [], languageId := "json",
        parseJsonError := none, errorModalOpen := false, revealedLine := none,
        decorations := none, fontSize := 14 } :=
  (moreAction_unescape_spec _ rfl).2 rfl

/-- Outside any construct, a character other than a quote or slash is
copied verbatim. -/
theorem stripGo_norm_cons_ne (c : Char) (r : List Char)
    (h1 : c ≠ '"') (h2 : c ≠ '/') :
    stripGo .norm (c :: r) = c :: stripGo .norm r := by
  simp [stripGo, h1, h2]

/-- A slash not followed by a comment opener is copied verbatim. -/
theorem stripGo_norm_slash_ne (d : Char) (r : List Char)
    (h1 : d ≠ '/') (h2 : d ≠ '*') :
    stripGo .norm ('/' :: d :: r) = '/' :: stripGo .norm (d :: r) := by
  simp [stripGo, h1, h2]

/-- Inside a string, a character other than a backslash or quote is copied
verbatim. -/
theorem stripGo_instring_cons_ne (c : Char) (r : List Char)
    (h1 : c ≠ '\\') (h2 : c ≠ '"') :
    stripGo .instring (c :: r) = c :: stripGo .instring r := by
  simp [stripGo, h1, h2]

/-- Inside a line comment, characters before the newline are dropped. -/
theorem stripGo_incomment_cons_ne (c : Char) (r : List Char) (h : c ≠ '\n') :
    stripGo .incomment (c :: r) = stripGo .incomment r := by
  simp [stripGo, h]

/-- Inside a block comment, a character other than a star is dropped. -/
theorem stripGo_inblock_cons_ne (c : Char) (r : List Char) (h : c ≠ '*') :
    stripGo .inblock (c :: r) = stripGo .inblock r := by
  simp [stripGo, h]

/-- Inside a block comment, a star not followed by a slash is dropped. -/
theorem stripGo_inblock_star_ne (d : Char) (r : List Char) (h : d ≠ '/') :
    stripGo .inblock ('*' :: d :: r) = stripGo .inblock (d :: r) := by
  simp [stripGo, h]

/-- The scanner never drops the head character it copies in normal mode:
the output of a non-slash head starts with that head. -/
theorem stripGo_norm_head (d : Char) (r : List Char) (h : d ≠ '/') :
    ∃ t, stripGo .norm (d :: r) = d :: t := by
  by_cases hq : d = '"'
  · subst hq
    exact ⟨stripGo .instring r, rfl⟩
  · exact ⟨stripGo .norm r, stripGo_norm_cons_ne d r hq h⟩

/-- Re-scanning already-stripped output from the relevant scanner states
reproduces it unchanged — the four mutual statements, by strong induction
on the input length. -/
theorem stripGo_idem_all :
    ∀ n : Nat, ∀ l : List Char, l.length ≤ n →
      stripGo .norm (stripGo .norm l) = stripGo .norm l
      ∧ stripGo .instring (stripGo .instring l) = stripGo .instring l
      ∧ stripGo .norm (stripGo .incomment l) = stripGo .incomment l
      ∧ stripGo .norm (stripGo .inblock l) = stripGo .inblock l := by
  intro n
  induction n with
  | zero =>
    intro l hl
    have hnil : l = [] := List.length_eq_zero.mp (Nat.le_zero.mp hl)
    subst hnil
    simp [stripGo]
  | succ n ih =>
    intro l hl
    match l with
    | [] => simp [stripGo]
    | c :: r =>
      have hr : r.length ≤ n := by
        simp [List.length_cons] at hl
        omega
      refine ⟨?_, ?_, ?_, ?_⟩
      · by_cases hq : c = '"'
        · subst hq
          rw [show stripGo .norm ('"' :: r) = '"' :: stripGo .instring r from rfl]
          rw [show stripGo .norm ('"' :: stripGo .instring r) =
              '"' :: stripGo .instring (stripGo .instring r) from rfl]
          rw [(ih r hr).2.1]
        · by_cases hs : c = '/'
          · subst hs
            match r, hr with
            | [], _ => simp [stripGo]
            | d :: r2, hr =>
              have hr2 : r2.length ≤ n := by
                simp [List.length_cons] at hr
                omega
              by_cases hd : d = '/'
              · subst hd
                rw [show stripGo .norm ('/' :: '/' :: r2) = stripGo .incomment r2 from rfl]
                exact (ih r2 hr2).2.2.1
              · by_cases hd2 : d = '*'
                · subst hd2
                  rw [show stripGo .norm ('/' :: '*' :: r2) = stripGo .inblock r2 from rfl]
                  exact (ih r2 hr2).2.2.2
                · rw [stripGo_norm_slash_ne d r2 hd hd2]
                  obtain ⟨t, ht⟩ := stripGo_norm_head d r2 hd
                  rw [ht, stripGo_norm_slash_ne d t hd hd2, ← ht,
                    (ih (d :: r2) hr).1]
          · rw [stripGo_norm_cons_ne c r hq hs,
              stripGo_norm_cons_ne c (stripGo .norm r) hq hs, (ih r hr).1]
      · by_cases hb : c = '\\'
        · subst hb
          match r, hr with
          | [], _ => simp [stripGo]
          | c2 :: r2, hr =>
            have hr2 : r2.length ≤ n := by
              simp [List.length_cons] at hr
              omega
            rw [show stripGo .instring ('\\' :: c2 :: r2) =
                '\\' :: c2 :: stripGo .instring r2 from rfl]
            rw [show stripGo .instring ('\\' :: c2 :: stripGo .instring r2) =
                '\\' :: c2 :: stripGo .instring (stripGo .instring r2) from rfl]
            rw [(ih r2 hr2).2.1]
        · by_cases hq : c = '"'
          · subst hq
            rw [show stripGo .instring ('"' :: r) = '"' :: stripGo .norm r from rfl]
            rw [show stripGo .instring ('"' :: stripGo .norm r) =
                '"' :: stripGo .norm (stripGo .norm r) from rfl]
            rw [(ih r hr).1]
          · rw [stripGo_instring_cons_ne c r hb hq,
              stripGo_instring_cons_ne c (stripGo .instring r) hb hq,
              (ih r hr).2.1]
      · by_cases hn : c = '\n'
        · subst hn
          rw [show stripGo .incomment ('\n' :: r) = '\n' :: stripGo .norm r from rfl]
          rw [stripGo_norm_cons_ne '\n' (stripGo .norm r) (by decide) (by decide)]
          rw [(ih r hr).1]
        · rw [stripGo_incomment_cons_ne c r hn]
          exact (ih r hr).2.2.1
      · by_cases hs : c = '*'
        · subst hs
          match r, hr with
          | [], _ => simp [stripGo]
          | d :: r2, hr =>
            have hr2 : r2.length ≤ n := by
              simp [List.length_cons] at hr
              omega
            by_cases hd : d = '/'
            · subst hd
              rw [show stripGo .inblock ('*' :: '/' :: r2) = stripGo .norm r2 from rfl]
              exact (ih r2 hr2).1
            · rw [stripGo_inblock_star_ne d r2 hd]
              exact (ih (d :: r2) hr).2.2.2
        · rw [stripGo_inblock_cons_ne c r hs]
          exact (ih r hr).2.2.2

/-- C8: the comment stripper is idempotent — applying it twice yields the
same string as applying it once, for every input text. -/
theorem removeJsonComments_idempotent (x : String) :
    removeJsonComments (removeJsonComments x) = removeJsonComments x := by
  unfold removeJsonComments
  exact congrArg String.mk ((stripGo_idem_all x.data.length x.data le_rfl).1)

/-- With pairwise distinct keys, filtering away one present key removes
exactly one tab. -/
theorem filter_key_length (k : String) :
    ∀ l : List TabItem, (l.map (fun t => t.key)).Nodup →
      ∀ t0 ∈ l, t0.key = k →
      (l.filter (fun t => t.key ≠ k)).length + 1 = l.length := by
  intro l
  induction l with
  | nil =>
    intro _ t0 h0
    simp at h0
  | cons a l ih =>
    intro hnd t0 ht0 hk
    rw [List.map_cons, List.nodup_cons] at hnd
    rcases List.mem_cons.mp ht0 with rfl | hmem
    · have hfl : l.filter (fun t => t.key ≠ k) = l := by
        apply List.filter_eq_self.mpr
        intro b hb
        have hbk : b.key ∈ l.map (fun t => t.key) := List.mem_map_of_mem _ hb
        simp only [ne_eq, decide_eq_true_eq]
        intro heq
        apply hnd.1
        rw [hk, ← heq]
        exact hbk
      have hpt0 : (decide (t0.key ≠ k)) = false := by simp [hk]
      rw [List.filter_cons, hpt0]
      simp only [Bool.false_eq_true, if_false]
      rw [hfl]
      simp
    · have hak : a.key ≠ k := by
        intro heq
        apply hnd.1
        have hkmem : t0.key ∈ l.map (fun t => t.key) := List.mem_map_of_mem _ hmem
        rw [hk] at hkmem
        rw [heq]
        exact hkmem
      have := ih hnd.2 t0 hmem hk
      simp only [List.filter_cons, hak, List.length_cons]
      simp [hak] at this ⊢
      omega

/-- C10: `closeTab` never leaves the tab list empty — closing the sole
remaining tab resets the store to the single default tab with key `"1"`
active, and with several (distinctly keyed, nonempty-keyed) tabs it removes
exactly the tab with the closed key, re-pointing `activeTabKey` at the last
remaining tab exactly when the closed tab was the active one. -/
theorem closeTab_spec (st : TabStore) (k : String)
    (hne : st.tabs ≠ [])
    (hnd : (st.tabs.map (fun t => t.key)).Nodup)
    (hkeys : ∀ t ∈ st.tabs, t.key ≠ "") :
    (closeTab k st).tabs ≠ []
    ∧ (st.tabs.length = 1 →
        closeTab k st =
          { st with tabs := [defaultTab], activeTabKey := "1", nextKey := 2 })
    ∧ (st.tabs.length ≠ 1 →
        (closeTab k st).tabs = st.tabs.filter (fun t => t.key ≠ k)
        ∧ (∀ t0 ∈ st.tabs, t0.key = k →
            (closeTab k st).tabs.length + 1 = st.tabs.length)
        ∧ (k ≠ st.activeTabKey →
            (closeTab k st).activeTabKey = st.activeTabKey)
        ∧ (k = st.activeTabKey → ∀ lastT,
            (st.tabs.filter (fun t => t.key ≠ k)).getLast? = some lastT →
            (closeTab k st).activeTabKey = lastT.key)) := by
  by_cases hlen : st.tabs.length = 1
  · have hct : closeTab k st =
        { st with tabs := [defaultTab], activeTabKey := "1", nextKey := 2 } := by
      simp [closeTab, closeAllTabs, hlen]
    refine ⟨?_, fun _ => hct, fun h => absurd hlen h⟩
    rw [hct]
    simp
  · have hct : closeTab k st =
        { st with
          tabs := st.tabs.filter (fun t => t.key ≠ k),
          activeTabKey :=
            (if k = st.activeTabKey then
              jsOrStr ((st.tabs.filter (fun t => t.key ≠ k)).getLast?.map
                (fun t => t.key)) "1"
            else st.activeTabKey) } := by
      simp [closeTab, hlen]
    have hfilne : st.tabs.filter (fun t => t.key ≠ k) ≠ [] := by
      intro hnil
      rcases hcase : st.tabs with _ | ⟨a, tl⟩
      · exact hne hcase
      · rcases htl : tl with _ | ⟨b, l⟩
        · rw [hcase, htl] at hlen
          exact hlen rfl
        · rw [hcase, htl] at hnil hnd
          have hmem := List.filter_eq_nil_iff.mp hnil
          have ha : a.key = k := by simpa using hmem a (by simp)
          have hb : b.key = k := by simpa using hmem b (by simp)
          rw [List.map_cons, List.nodup_cons] at hnd
          apply hnd.1
          rw [ha, ← hb]
          exact List.mem_map_of_mem _ (by simp)
    refine ⟨?_, fun h => absurd h hlen, fun _ => ⟨?_, ?_, ?_, ?_⟩⟩
    · rw [hct]
      simpa using hfilne
    · rw [hct]
    · intro t0 ht0 hk0
      rw [hct]
      simpa using filter_key_length k st.tabs hnd t0 ht0 hk0
    · intro hka
      rw [hct]
      simp [hka]
    · intro hka lastT hlast
      have hmemF : lastT ∈ st.tabs.filter (fun t => t.key ≠ k) := by
        obtain ⟨hne2, heq⟩ := List.mem_getLast?_eq_getLast
          (show lastT ∈ (st.tabs.filter (fun t => t.key ≠ k)).getLast? from by
            rw [hlast]; rfl)
        rw [heq]
        exact List.getLast_mem hne2
      have hmemT : lastT ∈ st.tabs := List.mem_of_mem_filter hmemF
      have hkey : lastT.key ≠ "" := hkeys lastT hmemT
      rw [hct]
      exact (if_pos hka).trans (by rw [hlast]; simp [jsOrStr, hkey])

/-- Witness for `closeTab_spec`: a three-tab store whose active middle tab
is closed; the two other tabs remain and the last one becomes active. -/
theorem closeTab_spec_witness :
    (closeTab "2"
      { tabs := [{ key := "1", title := "New Tab 1", content := "a", closable := true },
                 { key := "2", title := "New Tab 2", content := "b", closable := true },
                 { key := "3", title := "New Tab 3", content := "c", closable := true }],
        activeTabKey := "2", nextKey := 4 }).tabs =
      [{ key := "1", title := "New Tab 1", content := "a", closable := true },
       { key := "3", title := "New Tab 3", content := "c", closable := true }]
    ∧ (closeTab "2"
      { tabs := [{ key := "1", title := "New Tab 1", content := "a", closable := true },
                 { key := "2", title := "New Tab 2", content := "b", closable := true },
                 { key := "3", title := "New Tab 3", content := "c", closable := true }],
        activeTabKey := "2", nextKey := 4 }).activeTabKey = "3" := by
  have h := closeTab_spec
    { tabs := [{ key := "1", title := "New Tab 1", content := "a", closable := true },
               { key := "2", title := "New Tab 2", content := "b", closable := true },
               { key := "3", title := "New Tab 3", content := "c", closable := true }],
      activeTabKey := "2", nextKey := 4 } "2"
    (by decide) (by decide) (by decide)
  obtain ⟨-, -, h3⟩ := h
  obtain ⟨htabs, -, -, hactive⟩ := h3 (by decide)
  refine ⟨htabs.trans (by decide), ?_⟩
  rw [hactive rfl { key := "3", title := "New Tab 3", content := "c", closable := true }
    (by decide)]

/-- Witness for `fieldSort_scenario`, instantiating the JSON5 checker
parameter concretely. -/
theorem fieldSort_scenario_witness :
    fieldSort jsonParseError (fun _ => none) .asc
      { editorReady := true, buffer := "\x7b\"b\":1,\"a\":2\x7d", undoStack := [],
        languageId := "json", parseJsonError := none, errorModalOpen := false,
        revealedLine := none, decorations := none, fontSize := 14 } =
      some ({ editorReady := true, buffer := "\x7b\n  \"a\": 2,\n  \"b\": 1\n\x7d",
              undoStack := ["\x7b\"b\":1,\"a\":2\x7d"], languageId := "json",
              parseJsonError := none, errorModalOpen := false,
              revealedLine := none, decorations := none, fontSize := 14 }, true) :=
  (fieldSort_scenario (fun _ => none)).1

/-- Witness for `removeJsonComments_idempotent` at a concrete commented
text. -/
theorem removeJsonComments_idempotent_witness :
    removeJsonComments (removeJsonComments "a //x\n/*y*/b") =
      removeJsonComments "a //x\n/*y*/b" :=
  removeJsonComments_idempotent "a //x\n/*y*/b"
